import Mathlib

/-!
# Verification of the Windows anonymous-pipe backend

A shallow embedding of `library/std/src/sys/windows/pipe.rs` and proofs about
it.  Kernel interactions (named-pipe creation, blocking and overlapped reads
and writes, event waits) are modelled as explicit oracle inputs: each
operation that in the source asks the operating system for a result instead
consults a caller-supplied function, so every source function becomes a pure,
executable Lean function of its oracles.  Machine integers are modelled as
`Nat` (with an explicit `% 2^64` where the `usize` counter in
`random_number` can wrap).
-/

namespace Pipe

/-- Error kinds relevant to the pipe module: the source inspects
`io::ErrorKind::BrokenPipe` specially in `AnonPipe::read`; every other kind
is opaque to this file (carried as a numeric payload). -/
inductive ErrKind where
  | brokenPipe : ErrKind
  | other : Nat → ErrKind
deriving DecidableEq, Repr

/-- An `io::Error` as far as this module observes it: only its kind. -/
structure IOErr where
  kind : ErrKind
deriving DecidableEq, Repr

/-- `pub enum AnonPipe { Sync(Handle), Async(Handle) }` — a kernel handle
(modelled as a `Nat` identifier) tagged with its I/O mode. -/
inductive AnonPipe where
  | Sync : Nat → AnonPipe
  | Async : Nat → AnonPipe
deriving DecidableEq, Repr

/-- `pub struct Pipes { pub ours: AnonPipe, pub theirs: AnonPipe }`. -/
structure Pipes where
  ours : AnonPipe
  theirs : AnonPipe
deriving DecidableEq, Repr

/-- Oracle for the two underlying read mechanisms used by `AnonPipe::read`:
`Handle::read` for `Sync` handles and
`alertable_io_internal(ReadFileEx, ..)` for `Async` handles.  Each takes the
handle and the destination buffer (as the list of bytes it would hold) and
yields the platform outcome: a transferred byte count or an error. -/
structure ReadSys where
  syncRead : Nat → List Nat → Except IOErr Nat
  asyncRead : Nat → List Nat → Except IOErr Nat

/-- The raw result `AnonPipe::read` obtains before error translation:
`match self { Sync(h) => h.read(buf), Async(_) => alertable_io_internal(..) }`. -/
def rawRead (sys : ReadSys) (p : AnonPipe) (buf : List Nat) : Except IOErr Nat :=
  match p with
  | .Sync h => sys.syncRead h buf
  | .Async h => sys.asyncRead h buf

/-- `AnonPipe::read`: dispatches on the mode tag, then translates a
`BrokenPipe` error into `Ok(0)` (Windows reports reading from a pipe whose
peer closed as an error; the module interprets it as EOF); every other
result is passed through unchanged. -/
def AnonPipe.read (sys : ReadSys) (p : AnonPipe) (buf : List Nat) : Except IOErr Nat :=
  let result := rawRead sys p buf
  match result with
  | .error e => if e.kind = .brokenPipe then .ok 0 else result
  | _ => result

/-- Oracle for the two underlying write mechanisms used by `AnonPipe::write`:
`Handle::write` for `Sync` and `alertable_io_internal(WriteFileEx, ..)` for
`Async`. -/
structure WriteSys where
  syncWrite : Nat → List Nat → Except IOErr Nat
  asyncWrite : Nat → List Nat → Except IOErr Nat

/-- `AnonPipe::write`: dispatches on the mode tag and returns the underlying
outcome as-is — note the absence of any error translation, in contrast with
`AnonPipe::read`. -/
def AnonPipe.write (sys : WriteSys) (p : AnonPipe) (buf : List Nat) : Except IOErr Nat :=
  match p with
  | .Sync h => sys.syncWrite h buf
  | .Async h => sys.asyncWrite h buf

/-- The raw result of the mechanism underlying `AnonPipe::write`, for
stating that `write` returns it unchanged. -/
def rawWrite (sys : WriteSys) (p : AnonPipe) (buf : List Nat) : Except IOErr Nat :=
  match p with
  | .Sync h => sys.syncWrite h buf
  | .Async h => sys.asyncWrite h buf

/-- Oracle for `Pipes::new_synchronous`: the outcome of `CreatePipe`
(`none` models the zero return, with `createErr` the `last_os_error` code;
`some (r, w)` the two fresh handles) and of `Handle::set_inheritable`. -/
structure SyncFactorySys where
  createPipe : Option (Nat × Nat)
  createErr : Nat
  setInheritable : Except Nat Unit

/-- `Pipes::new_synchronous` (non-UWP path): on `CreatePipe` failure return
the platform error; otherwise orient the two handles by `ours_readable`,
optionally mark `theirs` inheritable (propagating failure), and return both
endpoints tagged `Sync`. -/
def new_synchronous (sys : SyncFactorySys) (ours_readable their_handle_inheritable : Bool) :
    Except Nat Pipes :=
  match sys.createPipe with
  | none => .error sys.createErr
  | some (r, w) =>
    let (ours, theirs) := if ours_readable then (r, w) else (w, r)
    if their_handle_inheritable then
      match sys.setInheritable with
      | .error e => .error e
      | .ok _ => .ok ⟨AnonPipe.Sync ours, AnonPipe.Sync theirs⟩
    else .ok ⟨AnonPipe.Sync ours, AnonPipe.Sync theirs⟩

/-! ## The asymmetric factory `anon_pipe` -/

/-- `c::ERROR_ACCESS_DENIED` (Windows error code 5). -/
def ERROR_ACCESS_DENIED : Nat := 5

/-- `c::ERROR_INVALID_PARAMETER` (Windows error code 87). -/
def ERROR_INVALID_PARAMETER : Nat := 87

/-- Outcome of one `CreateNamedPipeW` call: a fresh handle, or
`INVALID_HANDLE_VALUE` together with the `last_os_error` code. -/
inductive CreateOutcome where
  | success : Nat → CreateOutcome
  | failure : Nat → CreateOutcome
deriving DecidableEq, Repr

/-- One iteration of `anon_pipe`'s creation loop, as recorded for the
proofs: the pipe name is determined by the pair (process id, random
suffix) — `format!` of distinct numbers yields distinct strings, so two
attempts name the same pipe iff their `(pid, rnd)` pairs are equal — and
`rejectFlag` records whether `PIPE_REJECT_REMOTE_CLIENTS` was still in the
open-mode flags for this call. -/
structure Attempt where
  pid : Nat
  rnd : Nat
  rejectFlag : Bool
deriving DecidableEq, Repr

/-- 2^64: the modulus for the wrapping `usize` counter inside
`random_number` (`N.fetch_add(1, SeqCst)`). -/
def USIZE_MOD : Nat := 18446744073709551616

/-- The retry loop inside `anon_pipe`.  `create i` is the oracle outcome of
the `i`-th `CreateNamedPipeW` call; `rnd` is the current value of the
`random_number` counter (each call returns the value and increments it,
wrapping at 2^64); `tries` and `rejectFlag` are the loop-carried `tries`
counter (pre-increment value) and `reject_remote_clients_flag != 0`.
Mirrors the source: increment `tries`, build a fresh name, call
`CreateNamedPipeW`; on success break with the handle; on failure with
`tries < 10`, retry on `ERROR_ACCESS_DENIED`, or — if the reject flag is
still set and the error is `ERROR_INVALID_PARAMETER` — clear the flag,
decrement `tries` back, and retry; otherwise return the error.  The second
component is the list of attempts performed (oldest first). -/
def anonPipeLoop (create : Nat → CreateOutcome) (pid : Nat)
    (callIdx rnd tries : Nat) (rejectFlag : Bool) (acc : List Attempt) :
    Except Nat Nat × List Attempt :=
  let tries1 := tries + 1
  let acc1 := acc ++ [⟨pid, rnd, rejectFlag⟩]
  match create callIdx with
  | .success h => (.ok h, acc1)
  | .failure code =>
    if h1 : tries1 < 10 then
      if code = ERROR_ACCESS_DENIED then
        anonPipeLoop create pid (callIdx + 1) ((rnd + 1) % USIZE_MOD) tries1 rejectFlag acc1
      else if h3 : rejectFlag = true ∧ code = ERROR_INVALID_PARAMETER then
        anonPipeLoop create pid (callIdx + 1) ((rnd + 1) % USIZE_MOD) tries false acc1
      else (.error code, acc1)
    else (.error code, acc1)
termination_by 2 * (10 - tries) + (if rejectFlag then 1 else 0)
decreasing_by
  all_goals cases rejectFlag <;> simp_all <;> omega

/-- Oracle for the parts of `anon_pipe` outside the creation loop: the
outcomes of the `CreateNamedPipeW` calls and of the `File::open` that
produces `theirs` (a handle, or the propagated open error). -/
structure FactorySys where
  create : Nat → CreateOutcome
  openTheirs : Except Nat Nat

/-- `anon_pipe(ours_readable, their_handle_inheritable)`: run the creation
retry loop (the reject-remote-clients flag starts set, `tries` starts at 0,
the `random_number` counter starts at `rnd0`); on success open `theirs`
against the same name (propagating failure) and return
`Pipes { ours: AnonPipe::Async(..), theirs: AnonPipe::Sync(..) }`.
The two boolean arguments select only access-direction flags and the
inheritability security attribute, which this model does not otherwise
track.  The attempt trace is returned alongside for the proofs. -/
def anon_pipe (sys : FactorySys) (pid rnd0 : Nat)
    (ours_readable their_handle_inheritable : Bool) :
    Except Nat Pipes × List Attempt :=
  let _ := ours_readable
  let _ := their_handle_inheritable
  match anonPipeLoop sys.create pid 0 rnd0 0 true [] with
  | (.error e, atts) => (.error e, atts)
  | (.ok hOurs, atts) =>
    match sys.openTheirs with
    | .error e => (.error e, atts)
    | .ok hTheirs => (.ok ⟨AnonPipe.Async hOurs, AnonPipe.Sync hTheirs⟩, atts)

/-! ## The relay worker of `spawn_pipe_relay` -/

/-- The fixed buffer size of the relay worker: `let mut buf = [0_u8; 4096]`. -/
def relayBufSize : Nat := 4096

/-- Why the relay worker's loop stopped. -/
inductive ExitReason where
  | eofRead : ExitReason
  | errRead : ExitReason
  | errWrite : ExitReason
  | readsExhausted : ExitReason
  | writesExhausted : ExitReason
deriving DecidableEq, Repr

/-- Outcome of the inner write loop for one chunk. -/
inductive WOut where
  | completed : WOut
  | wfailed : WOut
  | wexhausted : WOut
deriving DecidableEq, Repr

/-- The inner loop of the relay worker:
`while let Ok(written) = writer.write(&buf[start..len]) { start += written;
if start == len { continue 'reader } } break;`.
`ws` is the oracle of successive `write` outcomes (each entry consumed by
one call), `len` the byte count of the current chunk, `start` the running
offset.  Returns how the loop left (chunk fully written / write error /
oracle exhausted), the unconsumed write oracle, and the final `start`. -/
def writeChunk : List (Except IOErr Nat) → Nat → Nat → WOut × List (Except IOErr Nat) × Nat
  | [], _, start => (.wexhausted, [], start)
  | w :: rest, len, start =>
    match w with
    | .error _ => (.wfailed, rest, start)
    | .ok written =>
      let start1 := start + written
      if start1 = len then (.completed, rest, start1)
      else writeChunk rest len start1

/-- The outer loop of the relay worker spawned by `spawn_pipe_relay`:
`'reader: while let Ok(len) = reader.read(&mut buf) { if len == 0 break;
.. inner loop .. }`.  `rs` is the oracle of successive `read` outcomes;
because the destination is the fixed 4096-byte `buf`, a read can deliver at
most `relayBufSize` bytes, which the model expresses by truncating each
oracle chunk with `take relayBufSize`.  `acc` accumulates the bytes
successfully handed to the write side.  The worker surfaces no error: its
entire observable outcome is the stop reason and the forwarded bytes. -/
def relayLoop : List (Except IOErr (List Nat)) → List (Except IOErr Nat) → List Nat →
    ExitReason × List Nat
  | [], _, acc => (.readsExhausted, acc)
  | r :: rrest, ws, acc =>
    match r with
    | .error _ => (.errRead, acc)
    | .ok raw =>
      let chunk := raw.take relayBufSize
      if chunk.length = 0 then (.eofRead, acc)
      else
        match writeChunk ws chunk.length 0 with
        | (.completed, ws1, _) => relayLoop rrest ws1 (acc ++ chunk)
        | (.wfailed, _, fin) => (.errWrite, acc ++ chunk.take fin)
        | (.wexhausted, _, fin) => (.writesExhausted, acc ++ chunk.take fin)

/-! ## The concurrent drain: `AsyncPipe` and `read2`

The overlapped kernel is modelled error-free (claims about the I/O error
paths of this machinery concern only `Drop`, handled separately below): a
scheduled read always starts, and a pending read always eventually
completes, delivering the bytes decided at schedule time.  The oracle
`Kernel` decides, per scheduled read, whether it completes immediately
(`read_overlapped` returning `Some`) or goes pending (`None`), and how
large a prefix of the remaining stream the kernel transfers; `slice_to_end`
always supplies at least one spare byte of buffer, so the effective request
size is `chunk k + 1 ≥ 1`, and the transfer is capped by the bytes the peer
still has (`min`). -/

/-- `enum State { NotReading, Reading, Read(usize) }`. -/
inductive State where
  | NotReading : State
  | Reading : State
  | Read : Nat → State
deriving DecidableEq, Repr

/-- Kernel oracle for one `AsyncPipe`: for the `k`-th scheduled read,
`pend k` tells whether the operation goes pending, and `chunk k + 1` is the
number of bytes the kernel would transfer if available. -/
structure Kernel where
  pend : Nat → Bool
  chunk : Nat → Nat

/-- `struct AsyncPipe { pipe, event, overlapped, dst, state }`, at the level
of abstraction of the proofs: `stream` is the sequence of bytes the peer
will still send before closing; `dst` the logical contents of the
destination `Vec` (its initialized `len` prefix); `staged` the bytes the
kernel has already copied past `dst.len` but that `result()` has not yet
committed by `set_len`; `k` counts scheduled reads (for oracle indexing).
The `event`/`overlapped` kernel objects are abstracted into `state`. -/
structure APipe where
  stream : List Nat
  dst : List Nat
  staged : List Nat
  state : State
  k : Nat
deriving DecidableEq, Repr

/-- `AsyncPipe::schedule_read`: `assert_eq!(self.state, State::NotReading)`
(assertion failure modelled as `none`); then `read_overlapped` on the spare
tail of `dst`.  Immediate completion with 0 bytes returns `Ok(false)` (EOF,
state left `NotReading`); immediate completion with `amt` bytes sets
`State::Read(amt)`; a pending operation sets `State::Reading`.  The bytes
the kernel transfers (now or later) are staged. -/
def schedule_read (K : Kernel) (p : APipe) : Option (Bool × APipe) :=
  if p.state = State.NotReading then
    let delivered := min (K.chunk p.k + 1) p.stream.length
    let taken := p.stream.take delivered
    let p1 : APipe :=
      { p with stream := p.stream.drop delivered, staged := taken, k := p.k + 1 }
    if K.pend p.k then some (true, { p1 with state := State.Reading })
    else if delivered = 0 then some (false, p1)
    else some (true, { p1 with state := State.Read delivered })
  else none

/-- `AsyncPipe::result`: in `NotReading` return `Ok(true)` unchanged; in
`Reading` wait for the overlapped result — the kernel reports exactly the
transferred byte count, here `staged.length` — and in `Read(amt)` take the
recorded count; then `set_len(len + amt)` (exposing the staged bytes),
reset the state and return whether the count was nonzero. -/
def result (p : APipe) : Bool × APipe :=
  match p.state with
  | State.NotReading => (true, p)
  | State.Reading =>
    let amt := p.staged.length
    (amt != 0, { p with state := State.NotReading, dst := p.dst ++ p.staged, staged := [] })
  | State.Read amt =>
    (amt != 0, { p with state := State.NotReading, dst := p.dst ++ p.staged, staged := [] })

/-- Termination measure for the drain loops: each committed-then-rescheduled
round either consumes peer bytes or moves to a state whose `result()` will
stop the loop. -/
def mu (p : APipe) : Nat :=
  2 * p.stream.length +
    (match p.state with
     | State.NotReading => 1
     | State.Reading => if p.staged.isEmpty then 0 else 2
     | State.Read amt => if amt = 0 then 0 else 2)

/-- The state after `result()` commits staged bytes. -/
def commit (p : APipe) : APipe :=
  { p with state := State.NotReading, dst := p.dst ++ p.staged, staged := [] }

theorem result_notReading {p : APipe} (h : p.state = State.NotReading) :
    result p = (true, p) := by
  unfold result
  rw [h]

theorem result_reading {p : APipe} (h : p.state = State.Reading) :
    result p = (p.staged.length != 0, commit p) := by
  unfold result commit
  rw [h]

theorem result_read {p : APipe} {amt : Nat} (h : p.state = State.Read amt) :
    result p = (amt != 0, commit p) := by
  unfold result commit
  rw [h]

theorem mu_notReading {p : APipe} (h : p.state = State.NotReading) :
    mu p = 2 * p.stream.length + 1 := by
  unfold mu
  rw [h]

theorem mu_reading_nil {p : APipe} (h : p.state = State.Reading) (he : p.staged = []) :
    mu p = 2 * p.stream.length := by
  unfold mu
  rw [h]
  simp [he]

theorem mu_reading_cons {p : APipe} (h : p.state = State.Reading) (he : p.staged ≠ []) :
    mu p = 2 * p.stream.length + 2 := by
  unfold mu
  rw [h]
  simp [he]

theorem mu_read_pos {p : APipe} {amt : Nat} (h : p.state = State.Read amt) (ha : amt ≠ 0) :
    mu p = 2 * p.stream.length + 2 := by
  unfold mu
  rw [h]
  simp [ha]

theorem mu_read_zero {p : APipe} {amt : Nat} (h : p.state = State.Read amt) (ha : amt = 0) :
    mu p = 2 * p.stream.length := by
  unfold mu
  rw [h]
  simp [ha]

theorem mu_commit {p : APipe} : mu (commit p) = 2 * p.stream.length + 1 :=
  mu_notReading rfl

/-- Effective transfer size of the `k`-th read: at least one byte of spare
buffer is offered, and the kernel delivers no more than the peer has. -/
def delivered (K : Kernel) (p : APipe) : Nat :=
  min (K.chunk p.k + 1) p.stream.length

theorem delivered_eq_zero_iff {K : Kernel} {p : APipe} :
    delivered K p = 0 ↔ p.stream = [] := by
  unfold delivered
  constructor
  · intro h
    rw [← List.length_eq_zero]
    omega
  · intro h
    rw [h]
    simp

theorem delivered_le {K : Kernel} {p : APipe} : delivered K p ≤ p.stream.length :=
  min_le_right _ _

theorem schedule_read_pend {K : Kernel} {p : APipe}
    (h : p.state = State.NotReading) (hp : K.pend p.k = true) :
    schedule_read K p = some (true,
      { p with stream := p.stream.drop (delivered K p),
               staged := p.stream.take (delivered K p),
               state := State.Reading, k := p.k + 1 }) := by
  unfold schedule_read delivered
  rw [if_pos h, if_pos hp]

theorem schedule_read_imm_eof {K : Kernel} {p : APipe}
    (h : p.state = State.NotReading) (hp : K.pend p.k = false) (hs : p.stream = []) :
    schedule_read K p = some (false, { p with staged := [], k := p.k + 1 }) := by
  unfold schedule_read
  rw [if_pos h]
  simp [hp, hs]

theorem schedule_read_imm {K : Kernel} {p : APipe}
    (h : p.state = State.NotReading) (hp : K.pend p.k = false) (hs : p.stream ≠ []) :
    schedule_read K p = some (true,
      { p with stream := p.stream.drop (delivered K p),
               staged := p.stream.take (delivered K p),
               state := State.Read (delivered K p), k := p.k + 1 }) := by
  unfold schedule_read
  rw [if_pos h]
  have hd : ¬(min (K.chunk p.k + 1) p.stream.length = 0) := by
    have : ¬(delivered K p = 0) := by
      rw [delivered_eq_zero_iff]
      exact hs
    exact this
  simp only [hp, Bool.false_eq_true, if_false]
  rw [if_neg hd]
  rfl

theorem schedule_read_not {K : Kernel} {p : APipe} (h : p.state ≠ State.NotReading) :
    schedule_read K p = none := by
  unfold schedule_read
  rw [if_neg h]

theorem take_delivered_ne_nil {K : Kernel} {p : APipe} (hs : p.stream ≠ []) :
    p.stream.take (delivered K p) ≠ [] := by
  have hd : delivered K p ≠ 0 := by
    rw [ne_eq, delivered_eq_zero_iff]
    exact hs
  rw [ne_eq, List.take_eq_nil_iff]
  push_neg
  exact ⟨hd, hs⟩

/-- After a successful `result()`, the state is `NotReading`, the measure
has not grown, and the untouched peer stream is unchanged. -/
theorem result_true_facts {p p1 : APipe} (h1 : result p = (true, p1)) :
    p1.state = State.NotReading ∧ mu p1 ≤ mu p ∧ p1.stream = p.stream := by
  cases hp : p.state
  · rw [result_notReading hp] at h1
    simp only [Prod.mk.injEq, true_and] at h1
    subst h1
    exact ⟨hp, le_refl _, rfl⟩
  · rw [result_reading hp] at h1
    simp only [Prod.mk.injEq] at h1
    obtain ⟨hb, hc⟩ := h1
    simp only [bne_iff_ne, ne_eq, ← List.length_eq_zero] at hb
    have hne : p.staged ≠ [] := by
      rw [ne_eq, ← List.length_eq_zero]
      exact hb
    subst hc
    refine ⟨rfl, ?_, rfl⟩
    rw [mu_commit, mu_reading_cons hp hne]
    omega
  · rw [result_read hp] at h1
    simp only [Prod.mk.injEq] at h1
    obtain ⟨hb, hc⟩ := h1
    simp only [bne_iff_ne, ne_eq] at hb
    subst hc
    refine ⟨rfl, ?_, rfl⟩
    rw [mu_commit, mu_read_pos hp hb]
    omega

/-- From `NotReading`, a successfully scheduled read strictly shrinks the
measure. -/
theorem schedule_true_decreases {K : Kernel} {p p2 : APipe}
    (h : p.state = State.NotReading) (h2 : schedule_read K p = some (true, p2)) :
    mu p2 < mu p := by
  rw [mu_notReading h]
  have hdle := delivered_le (K := K) (p := p)
  by_cases hp : K.pend p.k
  · rw [schedule_read_pend h hp] at h2
    simp only [Option.some.injEq, Prod.mk.injEq, true_and] at h2
    subst h2
    by_cases hs : p.stream = []
    · rw [mu_reading_nil rfl (by simp [hs])]
      simp [hs]
    · have hd : delivered K p ≠ 0 := by
        rw [ne_eq, delivered_eq_zero_iff]
        exact hs
      rw [mu_reading_cons rfl (take_delivered_ne_nil hs)]
      simp only [List.length_drop]
      omega
  · rw [Bool.not_eq_true] at hp
    by_cases hs : p.stream = []
    · rw [schedule_read_imm_eof h hp hs] at h2
      simp at h2
    · rw [schedule_read_imm h hp hs] at h2
      simp only [Option.some.injEq, Prod.mk.injEq, true_and] at h2
      subst h2
      have hd : delivered K p ≠ 0 := by
        rw [ne_eq, delivered_eq_zero_iff]
        exact hs
      rw [mu_read_pos rfl hd]
      simp only [List.length_drop]
      omega


/-- The composite step of the drain loops — commit a finished read, then
schedule the next one — strictly decreases the measure. -/
theorem step_decreases {p p1 p2 : APipe} {K : Kernel}
    (h1 : result p = (true, p1)) (h2 : schedule_read K p1 = some (true, p2)) :
    mu p2 < mu p := by
  obtain ⟨hst, hle, -⟩ := result_true_facts h1
  exact lt_of_lt_of_le (schedule_true_decreases hst h2) hle


/-- One round of the drain loops' shared body, the condition
`self.result()? && self.schedule_read()?`: `stop q` — the conjunction came
out false (this side is at EOF); `panic` — the assertion inside
`schedule_read` fired; `continu q` — both calls returned `true`, keep
looping. -/
inductive DrainOut where
  | stop : APipe → DrainOut
  | panic : DrainOut
  | continu : APipe → DrainOut
deriving DecidableEq, Repr

/-- The loop body of `AsyncPipe::finish` (also the per-side body of
`read2`'s main loop): run `result()`, and unless it reported EOF run
`schedule_read()` (note the short-circuit: after an EOF from `result` no
read is scheduled). -/
def drainStep (K : Kernel) (p : APipe) : DrainOut :=
  match result p with
  | (false, p1) => .stop p1
  | (true, p1) =>
    match schedule_read K p1 with
    | none => .panic
    | some (false, p2) => .stop p2
    | some (true, p2) => .continu p2

theorem drainStep_continu_dec {K : Kernel} {p q : APipe}
    (h : drainStep K p = .continu q) : mu q < mu p := by
  unfold drainStep at h
  rcases hr : result p with ⟨b, p1⟩
  simp only [hr] at h
  cases b
  · simp at h
  · rcases hs : schedule_read K p1 with _ | ⟨b2, p2⟩ <;> simp only [hs] at h
    · simp at h
    · cases b2 <;> simp at h
      subst h
      exact step_decreases hr hs

/-- `AsyncPipe::finish`: `while self.result()? && self.schedule_read()? {}`
— drain this pipe to EOF.  An assertion failure inside `schedule_read`
(impossible from this call pattern, as proved below) propagates as `none`. -/
def finish (K : Kernel) (p : APipe) : Option APipe :=
  match h : drainStep K p with
  | .stop q => some q
  | .panic => none
  | .continu q => finish K q
termination_by mu p
decreasing_by exact drainStep_continu_dec h

/-- The index `WaitForMultipleObjects` returns in `read2`'s loop, given the
completion-order oracle `pick`.  Each pipe's manual-reset event is signaled
unless a read is pending and not yet complete, and the wait reports the
lowest signaled index: if pipe 1 is not in `Reading` state its event is
still signaled and the wait must return 0; otherwise the oracle decides
whether pipe 1's pending operation completed first (0) or pipe 2's event
was observed signaled first (1).  (Pending operations always complete in
the error-free kernel model, so both choices are realizable timings.) -/
def waitIdx (pick : Bool) (s1 : State) : Nat :=
  if s1 ≠ State.Reading then 0
  else if pick then 0 else 1

/-- Outcome of one iteration of `read2`'s main loop: return with the two
final buffers, hit the assertion, or continue with one side updated. -/
inductive LoopOut where
  | ret : List Nat → List Nat → LoopOut
  | panic : LoopOut
  | go1 : APipe → LoopOut
  | go2 : APipe → LoopOut
deriving DecidableEq, Repr

/-- One iteration of `read2`'s main loop: wait for either pipe's event;
on index 0, `if !p1.result()? || !p1.schedule_read()? { return p2.finish() }`,
and symmetrically on index 1.  The returned buffers are the two `dst`
vectors at return time. -/
def read2Step (pick : Bool) (K1 K2 : Kernel) (p1 p2 : APipe) : LoopOut :=
  if waitIdx pick p1.state = 0 then
    match drainStep K1 p1 with
    | .panic => .panic
    | .stop q1 =>
      match finish K2 p2 with
      | none => .panic
      | some q2 => .ret q1.dst q2.dst
    | .continu q1 => .go1 q1
  else
    match drainStep K2 p2 with
    | .panic => .panic
    | .stop q2 =>
      match finish K1 p1 with
      | none => .panic
      | some q1 => .ret q1.dst q2.dst
    | .continu q2 => .go2 q2

theorem read2Step_go1_dec {pick : Bool} {K1 K2 : Kernel} {p1 p2 q : APipe}
    (h : read2Step pick K1 K2 p1 p2 = .go1 q) : mu q < mu p1 := by
  unfold read2Step at h
  split at h
  · rcases hd : drainStep K1 p1 with q1 | _ | q1 <;> simp only [hd] at h
    · rcases hf : finish K2 p2 with _ | q2 <;> simp only [hf] at h <;> simp at h
    · simp at h
    · simp only [LoopOut.go1.injEq] at h
      subst h
      exact drainStep_continu_dec hd
  · rcases hd : drainStep K2 p2 with q2 | _ | q2 <;> simp only [hd] at h
    · rcases hf : finish K1 p1 with _ | q1 <;> simp only [hf] at h <;> simp at h
    · simp at h
    · simp at h

theorem read2Step_go2_dec {pick : Bool} {K1 K2 : Kernel} {p1 p2 q : APipe}
    (h : read2Step pick K1 K2 p1 p2 = .go2 q) : mu q < mu p2 := by
  unfold read2Step at h
  split at h
  · rcases hd : drainStep K1 p1 with q1 | _ | q1 <;> simp only [hd] at h
    · rcases hf : finish K2 p2 with _ | q2 <;> simp only [hf] at h <;> simp at h
    · simp at h
    · simp at h
  · rcases hd : drainStep K2 p2 with q2 | _ | q2 <;> simp only [hd] at h
    · rcases hf : finish K1 p1 with _ | q1 <;> simp only [hf] at h <;> simp at h
    · simp at h
    · simp only [LoopOut.go2.injEq] at h
      subst h
      exact drainStep_continu_dec hd

/-- The main loop of `read2`: iterate `read2Step` until one side reports
EOF (upon which the other side has been finished out and the buffers are
returned) or the assertion fires (`none`). -/
def read2Loop (pick : Nat → Bool) (K1 K2 : Kernel) (t : Nat) (p1 p2 : APipe) :
    Option (List Nat × List Nat) :=
  match h : read2Step (pick t) K1 K2 p1 p2 with
  | .ret a b => some (a, b)
  | .panic => none
  | .go1 q => read2Loop pick K1 K2 (t + 1) q p2
  | .go2 q => read2Loop pick K1 K2 (t + 1) p1 q
termination_by mu p1 + mu p2
decreasing_by
  · have := read2Step_go1_dec h
    omega
  · have := read2Step_go2_dec h
    omega

/-- `read2(p1, &mut v1, p2, &mut v2)`: wrap each handle in an `AsyncPipe`
(state `NotReading`, event created signaled, so the first wait falls
through and the first loop iteration schedules the initial reads) and run
the multiplexed drain loop.  `s1`/`s2` are the byte streams the two peers
will send before closing; `v1`/`v2` the initial destination buffers. -/
def read2 (pick : Nat → Bool) (K1 K2 : Kernel) (v1 s1 v2 s2 : List Nat) :
    Option (List Nat × List Nat) :=
  read2Loop pick K1 K2 0 ⟨s1, v1, [], State.NotReading, 0⟩ ⟨s2, v2, [], State.NotReading, 0⟩

/-! ## `Drop for AsyncPipe` -/

/-- `Result::is_err()` on a modelled `io::Result`. -/
def exceptIsErr {α : Type} : Except IOErr α → Bool
  | .error _ => true
  | .ok _ => false

/-- Whether `result()` — as called from the destructor — returns an error:
only a pending overlapped wait can fail, with `wait` the oracle outcome of
`Handle::overlapped_result`; the `NotReading` and `Read(..)` branches never
touch the kernel. -/
def resultIsErr (wait : Except IOErr Nat) (p : APipe) : Bool :=
  match p.state with
  | State.NotReading => false
  | State.Reading => exceptIsErr wait
  | State.Read _ => false

/-- The decision logic of `Drop for AsyncPipe`: in any state other than
`Reading` the destructor returns at once (normal field cleanup, nothing
leaked); in `Reading` it calls `CancelIo` and then waits for the overlapped
result, and leaks the buffer and the `OVERLAPPED` record precisely when
`self.pipe.cancel_io().is_err() || self.result().is_err()`.  Returns
whether the leak path was taken. -/
def dropLeaks (cancel : Except IOErr Unit) (wait : Except IOErr Nat) (p : APipe) : Bool :=
  match p.state with
  | State.Reading => exceptIsErr cancel || resultIsErr wait p
  | _ => false

/-! ## Correctness of the drain -/

/-- Abstraction function: all bytes that must eventually stand in the
destination buffer — already-committed contents, kernel-staged bytes, and
the bytes the peer has yet to send. -/
def absP (p : APipe) : List Nat := p.dst ++ p.staged ++ p.stream

/-- The invariant the drain machinery maintains on an `AsyncPipe`:
nothing is staged while idle; a pending read stages no bytes only when the
peer had nothing left; an immediately-completed read never records a zero
count (that case returns EOF without entering `Read`). -/
def Inv (p : APipe) : Prop :=
  (p.state = State.NotReading → p.staged = []) ∧
  (p.state = State.Reading → p.staged = [] → p.stream = []) ∧
  (∀ amt, p.state = State.Read amt → amt ≠ 0)

theorem Inv_init (v s : List Nat) : Inv ⟨s, v, [], State.NotReading, 0⟩ := by
  refine ⟨fun _ => rfl, fun h => ?_, fun amt h => ?_⟩ <;> simp at h

theorem result_true_spec {p q : APipe} (hI : Inv p) (h : result p = (true, q)) :
    q.state = State.NotReading ∧ q.staged = [] ∧ q.stream = p.stream ∧
      absP q = absP p ∧ Inv q := by
  obtain ⟨i1, i2, i3⟩ := hI
  have base : q.state = State.NotReading ∧ q.staged = [] ∧ q.stream = p.stream ∧
      absP q = absP p := by
    cases hp : p.state
    · rw [result_notReading hp] at h
      simp only [Prod.mk.injEq, true_and] at h
      subst h
      exact ⟨hp, i1 hp, rfl, rfl⟩
    · rw [result_reading hp] at h
      simp only [Prod.mk.injEq] at h
      obtain ⟨-, hc⟩ := h
      subst hc
      refine ⟨rfl, rfl, rfl, ?_⟩
      simp [absP, commit]
    · rw [result_read hp] at h
      simp only [Prod.mk.injEq] at h
      obtain ⟨-, hc⟩ := h
      subst hc
      refine ⟨rfl, rfl, rfl, ?_⟩
      simp [absP, commit]
  obtain ⟨b1, b2, b3, b4⟩ := base
  refine ⟨b1, b2, b3, b4, fun _ => b2, fun hr => ?_, fun amt hr => ?_⟩ <;>
    rw [b1] at hr <;> simp at hr

theorem result_false_spec {p q : APipe} (hI : Inv p) (h : result p = (false, q)) :
    q.dst = absP p ∧ q.state = State.NotReading ∧ q.staged = [] ∧ q.stream = [] := by
  obtain ⟨i1, i2, i3⟩ := hI
  cases hp : p.state
  · rw [result_notReading hp] at h
    simp at h
  · rw [result_reading hp] at h
    simp only [Prod.mk.injEq] at h
    obtain ⟨hb, hc⟩ := h
    have hstg : p.staged = [] := by
      simp only [bne_eq_false_iff_eq] at hb
      rw [← List.length_eq_zero]
      exact hb
    have hstr : p.stream = [] := i2 hp hstg
    subst hc
    refine ⟨?_, rfl, rfl, hstr⟩
    simp [absP, commit, hstg, hstr]
  · rw [result_read hp] at h
    simp only [Prod.mk.injEq] at h
    obtain ⟨hb, -⟩ := h
    simp only [bne_eq_false_iff_eq] at hb
    exact absurd hb (i3 _ hp)

theorem schedule_ne_none {K : Kernel} {p : APipe} (h : p.state = State.NotReading) :
    schedule_read K p ≠ none := by
  unfold schedule_read
  rw [if_pos h]
  by_cases hp : K.pend p.k <;> simp [hp] <;> split <;> simp

theorem schedule_true_spec {K : Kernel} {p q : APipe}
    (h : p.state = State.NotReading) (hstg : p.staged = [])
    (hs : schedule_read K p = some (true, q)) :
    Inv q ∧ absP q = absP p ∧ q.dst = p.dst := by
  by_cases hp : K.pend p.k
  · rw [schedule_read_pend h hp] at hs
    simp only [Option.some.injEq, Prod.mk.injEq, true_and] at hs
    subst hs
    refine ⟨⟨fun hr => ?_, fun _ hr => ?_, fun amt hr => ?_⟩, ?_, rfl⟩
    · simp at hr
    · rcases List.take_eq_nil_iff.mp hr with hd | hd
      · have : p.stream = [] := delivered_eq_zero_iff.mp hd
        simp [this]
      · simp [hd]
    · simp at hr
    · simp [absP, hstg]
  · rw [Bool.not_eq_true] at hp
    by_cases hstr : p.stream = []
    · rw [schedule_read_imm_eof h hp hstr] at hs
      simp at hs
    · rw [schedule_read_imm h hp hstr] at hs
      simp only [Option.some.injEq, Prod.mk.injEq, true_and] at hs
      subst hs
      refine ⟨⟨fun hr => ?_, fun hr => ?_, fun amt hr => ?_⟩, ?_, rfl⟩
      · simp at hr
      · simp at hr
      · simp only [State.Read.injEq] at hr
        subst hr
        rw [ne_eq, delivered_eq_zero_iff]
        exact hstr
      · simp [absP, hstg]

theorem schedule_false_spec {K : Kernel} {p q : APipe}
    (h : p.state = State.NotReading) (hstg : p.staged = [])
    (hs : schedule_read K p = some (false, q)) :
    q.dst = p.dst ∧ p.stream = [] ∧ q.dst = absP p := by
  by_cases hp : K.pend p.k
  · rw [schedule_read_pend h hp] at hs
    simp at hs
  · rw [Bool.not_eq_true] at hp
    by_cases hstr : p.stream = []
    · rw [schedule_read_imm_eof h hp hstr] at hs
      simp only [Option.some.injEq, Prod.mk.injEq, true_and] at hs
      subst hs
      exact ⟨rfl, hstr, by simp [absP, hstg, hstr]⟩
    · rw [schedule_read_imm h hp hstr] at hs
      simp at hs

/-- On a well-formed pipe, one drain round never panics: it either stops
with the destination holding everything, or continues well-formed with the
same abstract contents. -/
theorem drainStep_spec {K : Kernel} {p : APipe} (hI : Inv p) :
    (∃ q, drainStep K p = .stop q ∧ q.dst = absP p) ∨
    (∃ q, drainStep K p = .continu q ∧ Inv q ∧ absP q = absP p) := by
  unfold drainStep
  rcases hr : result p with ⟨b, q⟩
  cases b
  · obtain ⟨hdst, -, -, -⟩ := result_false_spec hI hr
    left
    exact ⟨q, by simp only [hr], hdst⟩
  · obtain ⟨hst, hstg, -, habs, -⟩ := result_true_spec hI hr
    rcases hs : schedule_read K q with _ | ⟨b2, q1⟩
    · exact absurd hs (schedule_ne_none hst)
    cases b2
    · obtain ⟨-, -, habs'⟩ := schedule_false_spec hst hstg hs
      left
      refine ⟨q1, by simp only [hr, hs], ?_⟩
      rw [habs', habs]
    · obtain ⟨hI', habs', -⟩ := schedule_true_spec hst hstg hs
      right
      exact ⟨q1, by simp only [hr, hs], hI', by rw [habs', habs]⟩

/-- `finish` fully drains a well-formed pipe: it cannot hit the assertion,
and it leaves the destination holding every byte the abstraction promised. -/
theorem finish_spec (K : Kernel) :
    ∀ n p, mu p = n → Inv p → ∃ q, finish K p = some q ∧ q.dst = absP p := by
  intro n
  induction n using Nat.strong_induction_on with
  | _ n IH =>
    intro p hn hI
    rcases drainStep_spec (K := K) hI with ⟨q, hstep, hdst⟩ | ⟨q, hstep, hI', habs⟩
    · refine ⟨q, ?_, hdst⟩
      unfold finish
      rw [hstep]
    · have hd := drainStep_continu_dec hstep
      obtain ⟨q2, hq2, hq2d⟩ := IH (mu q) (by omega) q rfl hI'
      have hfe : finish K p = finish K q := by
        conv_lhs => unfold finish
        rw [hstep]
      refine ⟨q2, ?_, ?_⟩
      · rw [hfe]
        exact hq2
      · rw [hq2d, habs]

/-- One `read2` loop iteration, on well-formed sides, never panics: it
either returns both fully-drained buffers or continues with one side
advanced and the other untouched. -/
theorem read2Step_spec (pick : Bool) {K1 K2 : Kernel} {p1 p2 : APipe}
    (h1 : Inv p1) (h2 : Inv p2) :
    read2Step pick K1 K2 p1 p2 = LoopOut.ret (absP p1) (absP p2) ∨
    (∃ q, read2Step pick K1 K2 p1 p2 = .go1 q ∧ Inv q ∧ absP q = absP p1) ∨
    (∃ q, read2Step pick K1 K2 p1 p2 = .go2 q ∧ Inv q ∧ absP q = absP p2) := by
  unfold read2Step
  split
  · rcases drainStep_spec (K := K1) h1 with ⟨q1, hstep, hdst⟩ | ⟨q1, hstep, hI', habs⟩
    · obtain ⟨q2, hq2, hq2d⟩ := finish_spec K2 (mu p2) p2 rfl h2
      left
      simp only [hstep, hq2]
      rw [hdst, hq2d]
    · right
      left
      exact ⟨q1, by simp only [hstep], hI', habs⟩
  · rcases drainStep_spec (K := K2) h2 with ⟨q2, hstep, hdst⟩ | ⟨q2, hstep, hI', habs⟩
    · obtain ⟨q1, hq1, hq1d⟩ := finish_spec K1 (mu p1) p1 rfl h1
      left
      simp only [hstep, hq1]
      rw [hdst, hq1d]
    · right
      right
      exact ⟨q2, by simp only [hstep], hI', habs⟩

/-- The main loop of `read2` terminates with both destination buffers
holding exactly their initial contents followed by the bytes of their
side's stream. -/
theorem read2Loop_spec (pick : Nat → Bool) (K1 K2 : Kernel) :
    ∀ n t p1 p2, mu p1 + mu p2 = n → Inv p1 → Inv p2 →
      read2Loop pick K1 K2 t p1 p2 = some (absP p1, absP p2) := by
  intro n
  induction n using Nat.strong_induction_on with
  | _ n IH =>
    intro t p1 p2 hn h1 h2
    rcases read2Step_spec (pick t) h1 h2 with hstep | ⟨q, hstep, hI, habs⟩ |
        ⟨q, hstep, hI, habs⟩
    · unfold read2Loop
      rw [hstep]
    · have hd := read2Step_go1_dec hstep
      have hfe : read2Loop pick K1 K2 t p1 p2 = read2Loop pick K1 K2 (t + 1) q p2 := by
        conv_lhs => unfold read2Loop
        rw [hstep]
      rw [hfe, IH (mu q + mu p2) (by omega) (t + 1) q p2 rfl hI h2, habs]
    · have hd := read2Step_go2_dec hstep
      have hfe : read2Loop pick K1 K2 t p1 p2 = read2Loop pick K1 K2 (t + 1) p1 q := by
        conv_lhs => unfold read2Loop
        rw [hstep]
      rw [hfe, IH (mu p1 + mu q) (by omega) (t + 1) p1 q rfl h1 hI, habs]

/-- `read2` in full: for every interleaving and kernel chunking, both
buffers come back extended with exactly their stream's bytes. -/
theorem read2_eq (pick : Nat → Bool) (K1 K2 : Kernel) (v1 s1 v2 s2 : List Nat) :
    read2 pick K1 K2 v1 s1 v2 s2 = some (v1 ++ s1, v2 ++ s2) := by
  unfold read2
  rw [read2Loop_spec pick K1 K2 _ 0 _ _ rfl (Inv_init v1 s1) (Inv_init v2 s2)]
  simp [absP]


/-! ## Behaviour of the creation retry loop -/

theorem anonPipeLoop_success {create : Nat → CreateOutcome} {pid c rnd t : Nat}
    {f : Bool} {acc : List Attempt} {h : Nat} (hc : create c = .success h) :
    anonPipeLoop create pid c rnd t f acc = (.ok h, acc ++ [⟨pid, rnd, f⟩]) := by
  conv_lhs => unfold anonPipeLoop
  simp only [hc]

theorem anonPipeLoop_ad {create : Nat → CreateOutcome} {pid c rnd t : Nat}
    {f : Bool} {acc : List Attempt}
    (hc : create c = .failure ERROR_ACCESS_DENIED) (ht : t + 1 < 10) :
    anonPipeLoop create pid c rnd t f acc =
      anonPipeLoop create pid (c + 1) ((rnd + 1) % USIZE_MOD) (t + 1) f
        (acc ++ [⟨pid, rnd, f⟩]) := by
  conv_lhs => unfold anonPipeLoop
  simp only [hc]
  rw [dif_pos ht]
  simp

theorem anonPipeLoop_ip {create : Nat → CreateOutcome} {pid c rnd t : Nat}
    {acc : List Attempt}
    (hc : create c = .failure ERROR_INVALID_PARAMETER) (ht : t + 1 < 10) :
    anonPipeLoop create pid c rnd t true acc =
      anonPipeLoop create pid (c + 1) ((rnd + 1) % USIZE_MOD) t false
        (acc ++ [⟨pid, rnd, true⟩]) := by
  conv_lhs => unfold anonPipeLoop
  simp only [hc]
  rw [dif_pos ht]
  simp [ERROR_INVALID_PARAMETER, ERROR_ACCESS_DENIED]

theorem anonPipeLoop_err_other {create : Nat → CreateOutcome} {pid c rnd t code : Nat}
    {f : Bool} {acc : List Attempt}
    (hc : create c = .failure code) (ht : t + 1 < 10)
    (h5 : code ≠ ERROR_ACCESS_DENIED)
    (h87 : ¬(f = true ∧ code = ERROR_INVALID_PARAMETER)) :
    anonPipeLoop create pid c rnd t f acc = (.error code, acc ++ [⟨pid, rnd, f⟩]) := by
  conv_lhs => unfold anonPipeLoop
  simp only [hc]
  rw [dif_pos ht, if_neg h5, dif_neg h87]

theorem anonPipeLoop_err_exhausted {create : Nat → CreateOutcome} {pid c rnd t code : Nat}
    {f : Bool} {acc : List Attempt}
    (hc : create c = .failure code) (ht : ¬(t + 1 < 10)) :
    anonPipeLoop create pid c rnd t f acc = (.error code, acc ++ [⟨pid, rnd, f⟩]) := by
  conv_lhs => unfold anonPipeLoop
  simp only [hc]
  rw [dif_neg ht]

/-- The loop measure, for inductions that follow the recursion. -/
def loopMeasure (tries : Nat) (rejectFlag : Bool) : Nat :=
  2 * (10 - tries) + (if rejectFlag then 1 else 0)

theorem loopMeasure_ad {t : Nat} {f : Bool} (ht : t + 1 < 10) :
    loopMeasure (t + 1) f < loopMeasure t f := by
  unfold loopMeasure
  cases f <;> simp <;> omega

theorem loopMeasure_ip (t : Nat) : loopMeasure t false < loopMeasure t true := by
  unfold loopMeasure
  simp

/-- The trace is the incoming accumulator extended by the attempts of this
run; a run's fresh attempts do not depend on the accumulator. -/
theorem anonPipeLoop_acc (create : Nat → CreateOutcome) (pid : Nat) :
    ∀ m c rnd t f acc, loopMeasure t f = m →
      anonPipeLoop create pid c rnd t f acc =
        ((anonPipeLoop create pid c rnd t f []).1,
          acc ++ (anonPipeLoop create pid c rnd t f []).2) := by
  intro m
  induction m using Nat.strong_induction_on with
  | _ m IH =>
    intro c rnd t f acc hm
    rcases hc : create c with h | code
    · rw [anonPipeLoop_success hc, anonPipeLoop_success hc]
      simp
    · by_cases ht : t + 1 < 10
      · by_cases h5 : code = ERROR_ACCESS_DENIED
        · subst h5
          have hlt : loopMeasure (t + 1) f < m := hm ▸ loopMeasure_ad ht
          have e0 := @anonPipeLoop_ad create pid c rnd t f acc hc ht
          have e0' := @anonPipeLoop_ad create pid c rnd t f [] hc ht
          have e1 := IH (loopMeasure (t + 1) f) hlt (c + 1) ((rnd + 1) % USIZE_MOD)
            (t + 1) f (acc ++ [⟨pid, rnd, f⟩]) rfl
          have e2 := IH (loopMeasure (t + 1) f) hlt (c + 1) ((rnd + 1) % USIZE_MOD)
            (t + 1) f ([] ++ [⟨pid, rnd, f⟩]) rfl
          rw [e0, e1, e0', e2]
          simp
        · by_cases h87 : f = true ∧ code = ERROR_INVALID_PARAMETER
          · obtain ⟨hf, hcode⟩ := h87
            subst hf
            subst hcode
            have hlt : loopMeasure t false < m := hm ▸ loopMeasure_ip t
            have e0 := @anonPipeLoop_ip create pid c rnd t acc hc ht
            have e0' := @anonPipeLoop_ip create pid c rnd t [] hc ht
            have e1 := IH (loopMeasure t false) hlt (c + 1) ((rnd + 1) % USIZE_MOD)
              t false (acc ++ [⟨pid, rnd, true⟩]) rfl
            have e2 := IH (loopMeasure t false) hlt (c + 1) ((rnd + 1) % USIZE_MOD)
              t false ([] ++ [⟨pid, rnd, true⟩]) rfl
            rw [e0, e1, e0', e2]
            simp
          · rw [anonPipeLoop_err_other hc ht h5 h87,
                anonPipeLoop_err_other hc ht h5 h87]
            simp
      · rw [anonPipeLoop_err_exhausted hc ht, anonPipeLoop_err_exhausted hc ht]
        simp

/-- Attempt-count bound: a run entered with counter `t` and flag `f`
performs at most `10 - t` counted attempts (at least one attempt happens
even past the bound) plus one uncounted flag-drop attempt. -/
theorem anonPipeLoop_length (create : Nat → CreateOutcome) (pid : Nat) :
    ∀ m c rnd t f, loopMeasure t f = m →
      (anonPipeLoop create pid c rnd t f []).2.length ≤
        (10 - t) + (if f then 1 else 0) + (if 10 ≤ t then 1 else 0) := by
  intro m
  induction m using Nat.strong_induction_on with
  | _ m IH =>
    intro c rnd t f hm
    rcases hc : create c with h | code
    · rw [anonPipeLoop_success hc]
      simp only [List.nil_append, List.length_singleton]
      split <;> split <;> omega
    · by_cases ht : t + 1 < 10
      · by_cases h5 : code = ERROR_ACCESS_DENIED
        · subst h5
          have hlt : loopMeasure (t + 1) f < m := hm ▸ loopMeasure_ad ht
          rw [@anonPipeLoop_ad create pid c rnd t f [] hc ht]
          have ea := anonPipeLoop_acc create pid (loopMeasure (t + 1) f) (c + 1)
            ((rnd + 1) % USIZE_MOD) (t + 1) f ([] ++ [⟨pid, rnd, f⟩]) rfl
          rw [ea]
          have hb := IH _ hlt (c + 1) ((rnd + 1) % USIZE_MOD) (t + 1) f rfl
          simp only [List.nil_append, List.length_append, List.length_singleton]
          revert hb
          split <;> split <;> split <;> omega
        · by_cases h87 : f = true ∧ code = ERROR_INVALID_PARAMETER
          · obtain ⟨hf, hcode⟩ := h87
            subst hf
            subst hcode
            have hlt : loopMeasure t false < m := hm ▸ loopMeasure_ip t
            rw [@anonPipeLoop_ip create pid c rnd t [] hc ht]
            have ea := anonPipeLoop_acc create pid (loopMeasure t false) (c + 1)
              ((rnd + 1) % USIZE_MOD) t false ([] ++ [⟨pid, rnd, true⟩]) rfl
            rw [ea]
            have hb := IH _ hlt (c + 1) ((rnd + 1) % USIZE_MOD) t false rfl
            have h10 : ¬(10 ≤ t) := by omega
            simp only [List.nil_append, List.length_append, List.length_singleton] at hb ⊢
            simp [h10] at hb ⊢
            omega
          · rw [anonPipeLoop_err_other hc ht h5 h87]
            simp only [List.nil_append, List.length_singleton]
            split <;> split <;> omega
      · rw [anonPipeLoop_err_exhausted hc ht]
        simp only [List.nil_append, List.length_singleton]
        split <;> split <;> omega


/-- Random-suffix progression: the `i`-th attempt of a run entered with
counter value `rnd` uses suffix `(rnd + i) % 2^64` — every attempt gets the
next value of the wrapping counter, so consecutive attempts always carry
different suffixes (and hence different pipe names). -/
theorem anonPipeLoop_rnd_at (create : Nat → CreateOutcome) (pid : Nat) :
    ∀ m c rnd t f, loopMeasure t f = m → rnd < USIZE_MOD →
      ∀ i a, (anonPipeLoop create pid c rnd t f []).2.get? i = some a →
        a.rnd = (rnd + i) % USIZE_MOD := by
  intro m
  induction m using Nat.strong_induction_on with
  | _ m IH =>
    intro c rnd t f hm hrnd i a hget
    have hmod : rnd % USIZE_MOD = rnd := Nat.mod_eq_of_lt hrnd
    have hlt2 : (rnd + 1) % USIZE_MOD < USIZE_MOD :=
      Nat.mod_lt _ (by simp [USIZE_MOD])
    rcases hc : create c with h | code
    · rw [anonPipeLoop_success hc] at hget
      simp only [List.nil_append] at hget
      cases i
      · simp at hget
        rw [← hget]
        simpa using hmod.symm
      · simp at hget
    · by_cases ht : t + 1 < 10
      · by_cases h5 : code = ERROR_ACCESS_DENIED
        · subst h5
          rw [@anonPipeLoop_ad create pid c rnd t f [] hc ht] at hget
          have ea := anonPipeLoop_acc create pid (loopMeasure (t + 1) f) (c + 1)
            ((rnd + 1) % USIZE_MOD) (t + 1) f ([] ++ [⟨pid, rnd, f⟩]) rfl
          rw [ea] at hget
          have hlt : loopMeasure (t + 1) f < m := hm ▸ loopMeasure_ad ht
          simp only [List.nil_append, List.singleton_append] at hget
          cases i with
          | zero =>
            simp at hget
            rw [← hget]
            simpa using hmod.symm
          | succ i =>
            simp only [List.get?_cons_succ] at hget
            have := IH _ hlt (c + 1) ((rnd + 1) % USIZE_MOD) (t + 1) f rfl hlt2 i a hget
            rw [this]
            simp only [USIZE_MOD] at *
            omega
        · by_cases h87 : f = true ∧ code = ERROR_INVALID_PARAMETER
          · obtain ⟨hf, hcode⟩ := h87
            subst hf
            subst hcode
            rw [@anonPipeLoop_ip create pid c rnd t [] hc ht] at hget
            have ea := anonPipeLoop_acc create pid (loopMeasure t false) (c + 1)
              ((rnd + 1) % USIZE_MOD) t false ([] ++ [⟨pid, rnd, true⟩]) rfl
            rw [ea] at hget
            have hlt : loopMeasure t false < m := hm ▸ loopMeasure_ip t
            simp only [List.nil_append, List.singleton_append] at hget
            cases i with
            | zero =>
              simp at hget
              rw [← hget]
              simpa using hmod.symm
            | succ i =>
              simp only [List.get?_cons_succ] at hget
              have := IH _ hlt (c + 1) ((rnd + 1) % USIZE_MOD) t false rfl hlt2 i a hget
              rw [this]
              simp only [USIZE_MOD] at *
              omega
          · rw [anonPipeLoop_err_other hc ht h5 h87] at hget
            simp only [List.nil_append] at hget
            cases i
            · simp at hget
              rw [← hget]
              simpa using hmod.symm
            · simp at hget
      · rw [anonPipeLoop_err_exhausted hc ht] at hget
        simp only [List.nil_append] at hget
        cases i
        · simp at hget
          rw [← hget]
          simpa using hmod.symm
        · simp at hget

/-- The reject-remote-clients flag is dropped at most once: every trace
splits into a prefix of attempts made with the flag set followed by a
suffix made with it clear; once clear it never returns, and a run entered
with the flag clear records no flagged attempt. -/
theorem anonPipeLoop_flag_split (create : Nat → CreateOutcome) (pid : Nat) :
    ∀ m c rnd t f, loopMeasure t f = m →
      ∃ t1 t2, (anonPipeLoop create pid c rnd t f []).2 = t1 ++ t2 ∧
        (∀ a ∈ t1, a.rejectFlag = true) ∧ (∀ a ∈ t2, a.rejectFlag = false) ∧
        (f = false → t1 = []) := by
  intro m
  induction m using Nat.strong_induction_on with
  | _ m IH =>
    intro c rnd t f hm
    rcases hc : create c with h | code
    · rw [anonPipeLoop_success hc]
      cases f
      · exact ⟨[], [⟨pid, rnd, false⟩], by simp, by simp, by simp, fun _ => rfl⟩
      · exact ⟨[⟨pid, rnd, true⟩], [], by simp, by simp, by simp, by simp⟩
    · by_cases ht : t + 1 < 10
      · by_cases h5 : code = ERROR_ACCESS_DENIED
        · subst h5
          rw [@anonPipeLoop_ad create pid c rnd t f [] hc ht]
          have ea := anonPipeLoop_acc create pid (loopMeasure (t + 1) f) (c + 1)
            ((rnd + 1) % USIZE_MOD) (t + 1) f ([] ++ [⟨pid, rnd, f⟩]) rfl
          rw [ea]
          have hlt : loopMeasure (t + 1) f < m := hm ▸ loopMeasure_ad ht
          obtain ⟨t1, t2, heq, h1, h2, h3⟩ :=
            IH _ hlt (c + 1) ((rnd + 1) % USIZE_MOD) (t + 1) f rfl
          cases f
          · refine ⟨[], ⟨pid, rnd, false⟩ :: (t1 ++ t2), by simp [heq], by simp, ?_, fun _ => rfl⟩
            intro a ha
            rcases List.mem_cons.mp ha with ha | ha
            · rw [ha]
            · rw [h3 rfl] at ha
              simp at ha
              exact h2 a ha
          · refine ⟨⟨pid, rnd, true⟩ :: t1, t2, by simp [heq], ?_, h2, by simp⟩
            intro a ha
            rcases List.mem_cons.mp ha with ha | ha
            · rw [ha]
            · exact h1 a ha
        · by_cases h87 : f = true ∧ code = ERROR_INVALID_PARAMETER
          · obtain ⟨hf, hcode⟩ := h87
            subst hf
            subst hcode
            rw [@anonPipeLoop_ip create pid c rnd t [] hc ht]
            have ea := anonPipeLoop_acc create pid (loopMeasure t false) (c + 1)
              ((rnd + 1) % USIZE_MOD) t false ([] ++ [⟨pid, rnd, true⟩]) rfl
            rw [ea]
            have hlt : loopMeasure t false < m := hm ▸ loopMeasure_ip t
            obtain ⟨t1, t2, heq, h1, h2, h3⟩ :=
              IH _ hlt (c + 1) ((rnd + 1) % USIZE_MOD) t false rfl
            refine ⟨[⟨pid, rnd, true⟩], t1 ++ t2, by simp [heq], by simp, ?_, by simp⟩
            intro a ha
            rw [h3 rfl] at ha
            simp at ha
            exact h2 a ha
          · rw [anonPipeLoop_err_other hc ht h5 h87]
            cases f
            · exact ⟨[], [⟨pid, rnd, false⟩], by simp, by simp, by simp, fun _ => rfl⟩
            · exact ⟨[⟨pid, rnd, true⟩], [], by simp, by simp, by simp, by simp⟩
      · rw [anonPipeLoop_err_exhausted hc ht]
        cases f
        · exact ⟨[], [⟨pid, rnd, false⟩], by simp, by simp, by simp, fun _ => rfl⟩
        · exact ⟨[⟨pid, rnd, true⟩], [], by simp, by simp, by simp, by simp⟩

/-! ## Behaviour of the relay worker -/

theorem writeChunk_single (len : Nat) (ws : List (Except IOErr Nat)) :
    writeChunk (Except.ok len :: ws) len 0 = (WOut.completed, ws, len) := by
  simp [writeChunk]

theorem writeChunk_pair {len : Nat} (h2 : 2 ≤ len) (ws : List (Except IOErr Nat)) :
    writeChunk (Except.ok 1 :: Except.ok (len - 1) :: ws) len 0 =
      (WOut.completed, ws, len) := by
  have h1 : ¬(0 + 1 = len) := by omega
  have hl : 0 + 1 + (len - 1) = len := by omega
  simp only [writeChunk, h1, if_false, hl, if_pos]

/-- A nonempty chunk that the writer absorbs fully advances the relay loop
by one read, carrying the whole chunk into the forwarded bytes. -/
theorem relayLoop_step {c : List Nat} {rs : List (Except IOErr (List Nat))}
    {ws ws' : List (Except IOErr Nat)} {acc : List Nat} {fin : Nat}
    (hne : c ≠ []) (hle : c.length ≤ relayBufSize)
    (hw : writeChunk ws c.length 0 = (WOut.completed, ws', fin)) :
    relayLoop (Except.ok c :: rs) ws acc = relayLoop rs ws' (acc ++ c) := by
  have hch : c.take relayBufSize = c := List.take_of_length_le hle
  have hlen : ¬(c.length = 0) := by
    simpa [List.length_eq_zero] using hne
  simp only [relayLoop, hch, hlen, if_false, hw]

theorem relay_forwards_all (cs : List (List Nat)) :
    ∀ acc, (∀ c ∈ cs, c ≠ [] ∧ c.length ≤ relayBufSize) →
      relayLoop (cs.map Except.ok ++ [Except.ok []])
        (cs.map fun c => Except.ok c.length) acc = (ExitReason.eofRead, acc ++ cs.join) := by
  induction cs with
  | nil =>
    intro acc h
    simp [relayLoop]
  | cons c cs ih =>
    intro acc h
    obtain ⟨hne, hle⟩ := h c (by simp)
    simp only [List.map_cons, List.cons_append]
    rw [relayLoop_step hne hle (writeChunk_single c.length _)]
    rw [ih (acc ++ c) (fun d hd => h d (by simp [hd]))]
    simp

theorem relay_split_forwards_all (cs : List (List Nat)) :
    ∀ acc, (∀ c ∈ cs, 2 ≤ c.length ∧ c.length ≤ relayBufSize) →
      relayLoop (cs.map Except.ok ++ [Except.ok []])
        (cs.bind fun c => [Except.ok 1, Except.ok (c.length - 1)]) acc =
        (ExitReason.eofRead, acc ++ cs.join) := by
  induction cs with
  | nil =>
    intro acc h
    simp [relayLoop]
  | cons c cs ih =>
    intro acc h
    obtain ⟨h2, hle⟩ := h c (by simp)
    have hne : c ≠ [] := by
      intro hc
      rw [hc] at h2
      simp at h2
    have hbind : ((c :: cs).bind fun d => [(Except.ok 1 : Except IOErr Nat),
          Except.ok (d.length - 1)]) =
        (Except.ok 1 : Except IOErr Nat) :: Except.ok (c.length - 1) ::
          (cs.bind fun d => [(Except.ok 1 : Except IOErr Nat), Except.ok (d.length - 1)]) := by
      simp
    rw [List.map_cons, List.cons_append, hbind]
    rw [relayLoop_step hne hle (writeChunk_pair h2 _)]
    rw [ih (acc ++ c) (fun d hd => h d (by simp [hd]))]
    simp

/-- **C7** (confirmed): the relay worker spawned by `spawn_pipe_relay`
reads at most 4096 bytes at a time (the fixed buffer caps every chunk),
writes every byte of each chunk to the write side — following up after a
partial write until the full count is written — and exits exactly at a
zero-length read (EOF), a read error, or a write error, surfacing no error
to anyone: the worker's entire outcome is its exit reason and the
forwarded bytes.  Conjuncts: full forwarding with a writer that absorbs
each chunk in one call; full forwarding with a writer that takes 1 byte
and then the rest of each chunk (partial-write continuation); exit on
read error; exit on EOF read; exit on first-write error; and the 4096-byte
read cap on an arbitrary chunk. -/
theorem relay_worker_spec :
    (∀ cs : List (List Nat), (∀ c ∈ cs, c ≠ [] ∧ c.length ≤ relayBufSize) →
      relayLoop (cs.map Except.ok ++ [Except.ok []])
        (cs.map fun c => Except.ok c.length) [] = (ExitReason.eofRead, cs.join)) ∧
    (∀ cs : List (List Nat), (∀ c ∈ cs, 2 ≤ c.length ∧ c.length ≤ relayBufSize) →
      relayLoop (cs.map Except.ok ++ [Except.ok []])
        (cs.bind fun c => [Except.ok 1, Except.ok (c.length - 1)]) [] =
        (ExitReason.eofRead, cs.join)) ∧
    (∀ (e : IOErr) rs ws acc,
      relayLoop (Except.error e :: rs) ws acc = (ExitReason.errRead, acc)) ∧
    (∀ rs ws acc, relayLoop (Except.ok [] :: rs) ws acc = (ExitReason.eofRead, acc)) ∧
    (∀ (c : List Nat) rs (e : IOErr) ws acc, c ≠ [] →
      relayLoop (Except.ok c :: rs) (Except.error e :: ws) acc =
        (ExitReason.errWrite, acc)) ∧
    (∀ c : List Nat, c ≠ [] →
      relayLoop [Except.ok c, Except.ok []] [Except.ok (c.take relayBufSize).length] [] =
        (ExitReason.eofRead, c.take relayBufSize)) := by
  refine ⟨?_, ?_, ?_, ?_, ?_, ?_⟩
  · intro cs h
    simpa using relay_forwards_all cs [] h
  · intro cs h
    simpa using relay_split_forwards_all cs [] h
  · intro e rs ws acc
    simp [relayLoop]
  · intro rs ws acc
    simp [relayLoop]
  · intro c rs e ws acc hne
    have hch : ¬((c.take relayBufSize).length = 0) := by
      simp only [List.length_take, relayBufSize]
      rcases c with _ | ⟨x, c⟩
      · exact absurd rfl hne
      · simp
    simp [relayLoop, writeChunk, hch]
    exact ⟨by simp [relayBufSize], hne⟩
  · intro c hne
    have hch : ¬((c.take relayBufSize).length = 0) := by
      simp only [List.length_take, relayBufSize]
      rcases c with _ | ⟨x, c⟩
      · exact absurd rfl hne
      · simp
    simp [relayLoop, writeChunk, hch]

theorem relay_worker_spec_witness :
    relayLoop [Except.ok [1, 2, 3], Except.ok []] [Except.ok 3] [] =
      (ExitReason.eofRead, ([[1, 2, 3]] : List (List Nat)).join) ∧
    relayLoop [Except.ok [9], Except.ok []] [Except.error ⟨ErrKind.other 0⟩] [] =
      (ExitReason.errWrite, []) := by
  constructor
  · exact relay_worker_spec.1 [[1, 2, 3]] (by simp [relayBufSize])
  · exact relay_worker_spec.2.2.2.2.1 [9] [Except.ok []] ⟨ErrKind.other 0⟩ [] []
      (by simp)

/-! ## The claims -/

/-- **C1** (confirmed): for every pair of finite input streams fed to the
two pipes, every completion-order interleaving (`pick`) and every kernel
chunking and pending/immediate behaviour (`K1`, `K2`), `read2` terminates
once both pipes have reached end-of-stream, and on return `v1` has been
extended with exactly the bytes of pipe 1's stream in order and `v2` with
exactly pipe 2's; when one side reaches EOF first, the other is still
drained completely via `finish()` (the `some` result is only produced on
that path). -/
theorem read2_drains_both_streams (pick : Nat → Bool) (K1 K2 : Kernel)
    (v1 s1 v2 s2 : List Nat) :
    read2 pick K1 K2 v1 s1 v2 s2 = some (v1 ++ s1, v2 ++ s2) :=
  read2_eq pick K1 K2 v1 s1 v2 s2

/-- **C10** (confirmed): in every call sequence `read2` performs on an
`AsyncPipe` — the main loop and the `finish()` loop — `schedule_read` is
invoked only in state `NotReading` (each invocation follows a `result()`
that reset the state), so the assertion at the start of `schedule_read`
can never fail: for every interleaving, kernel behaviour and input the run
never reaches the modelled assertion-failure outcome (`none`). -/
theorem read2_schedule_assert_ok (pick : Nat → Bool) (K1 K2 : Kernel)
    (v1 s1 v2 s2 : List Nat) :
    (read2 pick K1 K2 v1 s1 v2 s2).isSome := by
  rw [read2_eq]
  rfl

/-- **C2** (confirmed): for every endpoint mode (Sync or Async) and every
buffer, if the mechanism underlying `AnonPipe::read` fails with a
broken-pipe error the read returns `Ok(0)`; every other outcome — other
errors, and successes — is returned unchanged. -/
theorem read_translates_broken_pipe (sys : ReadSys) (p : AnonPipe) (buf : List Nat) :
    (∀ e : IOErr, rawRead sys p buf = .error e →
      (e.kind = ErrKind.brokenPipe → AnonPipe.read sys p buf = .ok 0) ∧
      (e.kind ≠ ErrKind.brokenPipe → AnonPipe.read sys p buf = .error e)) ∧
    (∀ n : Nat, rawRead sys p buf = .ok n → AnonPipe.read sys p buf = .ok n) := by
  unfold AnonPipe.read
  refine ⟨fun e he => ⟨fun hk => ?_, fun hk => ?_⟩, fun n hn => ?_⟩
  · simp [he, hk]
  · simp [he, hk]
  · simp [hn]

/-- A read oracle whose every outcome is a broken-pipe error. -/
def brokenReadSys : ReadSys :=
  ⟨fun _ _ => Except.error ⟨ErrKind.brokenPipe⟩, fun _ _ => Except.error ⟨ErrKind.brokenPipe⟩⟩

theorem read_translates_broken_pipe_witness :
    AnonPipe.read brokenReadSys (AnonPipe.Sync 0) [] = Except.ok 0 :=
  ((read_translates_broken_pipe brokenReadSys (AnonPipe.Sync 0) []).1
    ⟨ErrKind.brokenPipe⟩ rfl).1 rfl

/-- **C9** (confirmed): `AnonPipe::write` applies no broken-pipe-to-EOF
translation: for every endpoint and buffer it returns the underlying
outcome as-is, so any underlying failure — broken-pipe included — comes
back as that error, never converted into a success. -/
theorem write_no_translation (sys : WriteSys) (p : AnonPipe) (buf : List Nat) :
    AnonPipe.write sys p buf = rawWrite sys p buf ∧
    ∀ e : IOErr, rawWrite sys p buf = .error e →
      AnonPipe.write sys p buf = .error e := by
  have h : AnonPipe.write sys p buf = rawWrite sys p buf := by
    cases p <;> rfl
  exact ⟨h, fun e he => h.trans he⟩

/-- A write oracle whose every outcome is a broken-pipe error. -/
def brokenWriteSys : WriteSys :=
  ⟨fun _ _ => Except.error ⟨ErrKind.brokenPipe⟩, fun _ _ => Except.error ⟨ErrKind.brokenPipe⟩⟩

theorem write_no_translation_witness :
    AnonPipe.write brokenWriteSys (AnonPipe.Async 0) [] =
      Except.error ⟨ErrKind.brokenPipe⟩ :=
  (write_no_translation brokenWriteSys (AnonPipe.Async 0) []).2 ⟨ErrKind.brokenPipe⟩ rfl

/-- **C4** (confirmed): the destructor of `AsyncPipe` leaks the buffer and
the overlapped request record exactly when the state is `Reading` and
either the cancel or the subsequent result-wait fails; in every state
other than `Reading` it frees nothing specially and leaks nothing. -/
theorem drop_leak_decision (cancel : Except IOErr Unit) (wait : Except IOErr Nat)
    (p : APipe) :
    (p.state ≠ State.Reading → dropLeaks cancel wait p = false) ∧
    (p.state = State.Reading →
      (dropLeaks cancel wait p = true ↔
        exceptIsErr cancel = true ∨ exceptIsErr wait = true)) := by
  constructor
  · intro h
    unfold dropLeaks
    cases hst : p.state
    · simp only [hst]
    · exact absurd hst h
    · simp only [hst]
  · intro h
    unfold dropLeaks resultIsErr
    simp only [h]
    simp [Bool.or_eq_true]

theorem drop_leak_decision_witness :
    dropLeaks (Except.error ⟨ErrKind.other 1⟩) (Except.ok 0)
      ⟨[], [], [], State.Reading, 0⟩ = true :=
  ((drop_leak_decision (Except.error ⟨ErrKind.other 1⟩) (Except.ok 0)
      ⟨[], [], [], State.Reading, 0⟩).2 rfl).mpr (Or.inl rfl)

/-- **C5** (confirmed): `AsyncPipe::result()` in state `Reading` (waiting
for the pending overlapped count, which is the number of staged bytes) or
`Read(amt)` commits the transferred bytes — the destination's logical
length grows by exactly the count — resets the state to `NotReading`, and
returns `false` iff the count is zero (end-of-stream). -/
theorem result_resolves (p : APipe) :
    (p.state = State.Reading →
      result p = (p.staged.length != 0, commit p) ∧
      (commit p).dst.length = p.dst.length + p.staged.length ∧
      (commit p).state = State.NotReading ∧ (commit p).dst = p.dst ++ p.staged) ∧
    (∀ amt, p.state = State.Read amt → p.staged.length = amt →
      result p = (amt != 0, commit p) ∧
      (commit p).dst.length = p.dst.length + amt ∧
      (commit p).state = State.NotReading ∧ (commit p).dst = p.dst ++ p.staged) := by
  constructor
  · intro h
    exact ⟨result_reading h, by simp [commit], rfl, rfl⟩
  · intro amt h hlen
    exact ⟨result_read h, by simp [commit, hlen], rfl, rfl⟩

theorem result_resolves_witness :
    result ⟨[], [0], [7], State.Read 1, 3⟩ =
      (true, commit ⟨[], [0], [7], State.Read 1, 3⟩) ∧
    (commit ⟨[], [0], [7], State.Read 1, 3⟩).dst = [0, 7] := by
  have h := (result_resolves ⟨[], [0], [7], State.Read 1, 3⟩).2 1 rfl rfl
  exact ⟨h.1, h.2.2.2⟩

/-- **C8** (confirmed): for every oracle and both boolean flags, a
successful `anon_pipe` returns `ours` tagged `Async` and `theirs` tagged
`Sync`, and a successful `Pipes::new_synchronous` returns both endpoints
tagged `Sync`. -/
theorem factory_mode_tags :
    (∀ (sys : FactorySys) (pid rnd0 : Nat) (oursReadable theirsInheritable : Bool)
        (P : Pipes) (atts : List Attempt),
      anon_pipe sys pid rnd0 oursReadable theirsInheritable = (.ok P, atts) →
      (∃ h, P.ours = AnonPipe.Async h) ∧ ∃ h, P.theirs = AnonPipe.Sync h) ∧
    (∀ (sys : SyncFactorySys) (oursReadable theirsInheritable : Bool) (P : Pipes),
      new_synchronous sys oursReadable theirsInheritable = .ok P →
      (∃ h, P.ours = AnonPipe.Sync h) ∧ ∃ h, P.theirs = AnonPipe.Sync h) := by
  constructor
  · intro sys pid rnd0 oR tI P atts hok
    unfold anon_pipe at hok
    rcases hl : anonPipeLoop sys.create pid 0 rnd0 0 true [] with ⟨r, tr⟩
    simp only [hl] at hok
    rcases r with e | hOurs
    · simp at hok
    · rcases ho : sys.openTheirs with e | hTheirs <;> simp only [ho] at hok
      · simp at hok
      · simp only [Prod.mk.injEq, Except.ok.injEq] at hok
        obtain ⟨hP, -⟩ := hok
        rw [← hP]
        exact ⟨⟨hOurs, rfl⟩, ⟨hTheirs, rfl⟩⟩
  · intro sys oR tI P hok
    unfold new_synchronous at hok
    rcases hc : sys.createPipe with _ | ⟨r, w⟩ <;> simp only [hc] at hok
    · simp at hok
    · cases oR <;> cases tI <;> simp only [Bool.false_eq_true, if_false, if_true] at hok
      · simp only [Except.ok.injEq] at hok
        rw [← hok]
        exact ⟨⟨w, rfl⟩, ⟨r, rfl⟩⟩
      · rcases hs : sys.setInheritable with e | u <;> simp only [hs] at hok
        · simp at hok
        · simp only [Except.ok.injEq] at hok
          rw [← hok]
          exact ⟨⟨w, rfl⟩, ⟨r, rfl⟩⟩
      · simp only [Except.ok.injEq] at hok
        rw [← hok]
        exact ⟨⟨r, rfl⟩, ⟨w, rfl⟩⟩
      · rcases hs : sys.setInheritable with e | u <;> simp only [hs] at hok
        · simp at hok
        · simp only [Except.ok.injEq] at hok
          rw [← hok]
          exact ⟨⟨r, rfl⟩, ⟨w, rfl⟩⟩

/-- An oracle whose first creation call succeeds at once. -/
def okFactorySys : FactorySys := ⟨fun _ => CreateOutcome.success 3, Except.ok 4⟩

/-- An oracle for `Pipes::new_synchronous` whose `CreatePipe` succeeds. -/
def okSyncSys : SyncFactorySys := ⟨some (5, 6), 0, Except.ok ()⟩

theorem factory_mode_tags_witness :
    ((∃ h, (Pipes.mk (AnonPipe.Async 3) (AnonPipe.Sync 4)).ours = AnonPipe.Async h) ∧
     (∃ h, (Pipes.mk (AnonPipe.Async 3) (AnonPipe.Sync 4)).theirs = AnonPipe.Sync h)) ∧
    ((∃ h, (Pipes.mk (AnonPipe.Sync 5) (AnonPipe.Sync 6)).ours = AnonPipe.Sync h) ∧
     (∃ h, (Pipes.mk (AnonPipe.Sync 5) (AnonPipe.Sync 6)).theirs = AnonPipe.Sync h)) := by
  constructor
  · exact factory_mode_tags.1 okFactorySys 1 0 true true
      ⟨AnonPipe.Async 3, AnonPipe.Sync 4⟩ [⟨1, 0, true⟩]
      (by simp [anon_pipe, anonPipeLoop, okFactorySys])
  · exact factory_mode_tags.2 okSyncSys true false ⟨AnonPipe.Sync 5, AnonPipe.Sync 6⟩
      (by simp [new_synchronous, okSyncSys])

/-- **C3** (corrected): the retry policy of `anon_pipe`'s creation loop.
(1) From the entry state (counter 0, rejection flag set) the loop performs
at most 11 creation calls — at most 10 counted attempts plus at most one
uncounted attempt after an invalid-parameter flag drop — not at most 10 as
the claim states (see the counterexample).  (2) An access-denied failure
with the counted attempt number below 10 retries with the next value of
the wrapping name counter.  (3) Consecutive attempts always carry
different random suffixes, hence freshly generated names.  (4) A failure
that is neither access-denied nor invalid-parameter-while-flagged is
returned to the caller immediately as the platform error — the claim's
"any other creation error" must except the invalid-parameter flag-drop
path.  (5) Any failure once the counted attempt number reaches 10 is
returned immediately. -/
theorem anon_pipe_retry_policy :
    (∀ (create : Nat → CreateOutcome) (pid rnd0 : Nat),
      (anonPipeLoop create pid 0 rnd0 0 true []).2.length ≤ 11) ∧
    (∀ (create : Nat → CreateOutcome) (pid c rnd t : Nat) (f : Bool) (acc : List Attempt),
      create c = .failure ERROR_ACCESS_DENIED → t + 1 < 10 →
      anonPipeLoop create pid c rnd t f acc =
        anonPipeLoop create pid (c + 1) ((rnd + 1) % USIZE_MOD) (t + 1) f
          (acc ++ [⟨pid, rnd, f⟩])) ∧
    (∀ (create : Nat → CreateOutcome) (pid rnd0 : Nat), rnd0 < USIZE_MOD →
      ∀ i a b, (anonPipeLoop create pid 0 rnd0 0 true []).2.get? i = some a →
        (anonPipeLoop create pid 0 rnd0 0 true []).2.get? (i + 1) = some b →
        b.rnd ≠ a.rnd) ∧
    (∀ (create : Nat → CreateOutcome) (pid c rnd t code : Nat) (f : Bool)
        (acc : List Attempt),
      create c = .failure code → t + 1 < 10 → code ≠ ERROR_ACCESS_DENIED →
      ¬(f = true ∧ code = ERROR_INVALID_PARAMETER) →
      anonPipeLoop create pid c rnd t f acc = (.error code, acc ++ [⟨pid, rnd, f⟩])) ∧
    (∀ (create : Nat → CreateOutcome) (pid c rnd t code : Nat) (f : Bool)
        (acc : List Attempt),
      create c = .failure code → ¬(t + 1 < 10) →
      anonPipeLoop create pid c rnd t f acc = (.error code, acc ++ [⟨pid, rnd, f⟩])) := by
  refine ⟨?_, ?_, ?_, ?_, ?_⟩
  · intro create pid rnd0
    have h := anonPipeLoop_length create pid (loopMeasure 0 true) 0 rnd0 0 true rfl
    norm_num at h
    exact h
  · intro create pid c rnd t f acc hc ht
    exact anonPipeLoop_ad hc ht
  · intro create pid rnd0 hrnd i a b ha hb
    have hra := anonPipeLoop_rnd_at create pid (loopMeasure 0 true) 0 rnd0 0 true rfl hrnd i a ha
    have hrb := anonPipeLoop_rnd_at create pid (loopMeasure 0 true) 0 rnd0 0 true rfl hrnd
      (i + 1) b hb
    rw [hra, hrb]
    simp only [USIZE_MOD]
    omega
  · intro create pid c rnd t code f acc hc ht h5 h87
    exact anonPipeLoop_err_other hc ht h5 h87
  · intro create pid c rnd t code f acc hc ht
    exact anonPipeLoop_err_exhausted hc ht

/-- Oracle for the C3 counterexample: the first creation call fails with
`ERROR_INVALID_PARAMETER`, every later one with `ERROR_ACCESS_DENIED`. -/
def c3Oracle : Nat → CreateOutcome :=
  fun i => if i = 0 then .failure ERROR_INVALID_PARAMETER else .failure ERROR_ACCESS_DENIED

/-- **C3 counterexample**: under `c3Oracle` the loop does not return the
invalid-parameter error of the first call immediately — the claim's
"any other creation error ... is returned to the caller immediately" would
require `error 87` after one attempt — and it performs 11 naming attempts,
violating the claimed bound of 10: it ends with the access-denied error of
the 11th attempt. -/
theorem anon_pipe_retry_policy_cex :
    (anonPipeLoop c3Oracle 1 0 0 0 true []).1 = Except.error ERROR_ACCESS_DENIED ∧
    (anonPipeLoop c3Oracle 1 0 0 0 true []).2.length = 11 := by
  constructor <;>
    simp [anonPipeLoop, c3Oracle, ERROR_ACCESS_DENIED, ERROR_INVALID_PARAMETER, USIZE_MOD]

theorem anon_pipe_retry_policy_witness :
    (anonPipeLoop (fun _ => CreateOutcome.failure 99) 1 0 0 0 true []).2.length ≤ 11 ∧
    anonPipeLoop (fun _ => CreateOutcome.failure 99) 1 0 0 0 true [] =
      (Except.error 99, [⟨1, 0, true⟩]) := by
  constructor
  · exact anon_pipe_retry_policy.1 (fun _ => CreateOutcome.failure 99) 1 0
  · have h := anon_pipe_retry_policy.2.2.2.1 (fun _ => CreateOutcome.failure 99) 1 0 0 0 99
      true [] rfl (by omega) (by decide) (by decide)
    simpa using h

/-- **C6** (corrected): when creation fails with an invalid-parameter
error while the remote-client-rejection option is still set (and the
counted attempt number is below 10), the option is dropped without
consuming a retry attempt (`tries` is preserved) and the creation is
retried — but with a freshly generated name carrying the next value of the
wrapping random counter, not the same name as the claim states (see the
counterexample).  The drop-without-penalty path can be taken at most once
per call: every attempt trace is a flag-set prefix followed by a
flag-clear suffix, and the loop always terminates, within the 11-call
bound. -/
theorem anon_pipe_flag_drop :
    (∀ (create : Nat → CreateOutcome) (pid c rnd t : Nat) (acc : List Attempt),
      create c = .failure ERROR_INVALID_PARAMETER → t + 1 < 10 →
      anonPipeLoop create pid c rnd t true acc =
        anonPipeLoop create pid (c + 1) ((rnd + 1) % USIZE_MOD) t false
          (acc ++ [⟨pid, rnd, true⟩])) ∧
    (∀ (create : Nat → CreateOutcome) (pid c rnd t : Nat) (f : Bool),
      ∃ t1 t2, (anonPipeLoop create pid c rnd t f []).2 = t1 ++ t2 ∧
        (∀ a ∈ t1, a.rejectFlag = true) ∧ (∀ a ∈ t2, a.rejectFlag = false)) ∧
    (∀ (create : Nat → CreateOutcome) (pid rnd0 : Nat),
      (anonPipeLoop create pid 0 rnd0 0 true []).2.length ≤ 11) := by
  refine ⟨?_, ?_, ?_⟩
  · intro create pid c rnd t acc hc ht
    exact anonPipeLoop_ip hc ht
  · intro create pid c rnd t f
    obtain ⟨t1, t2, heq, h1, h2, -⟩ :=
      anonPipeLoop_flag_split create pid (loopMeasure t f) c rnd t f rfl
    exact ⟨t1, t2, heq, h1, h2⟩
  · intro create pid rnd0
    have h := anonPipeLoop_length create pid (loopMeasure 0 true) 0 rnd0 0 true rfl
    norm_num at h
    exact h

/-- Oracle for the C6 counterexample: the first creation call fails with
`ERROR_INVALID_PARAMETER`, the second succeeds. -/
def c6Oracle : Nat → CreateOutcome :=
  fun i => if i = 0 then .failure ERROR_INVALID_PARAMETER else .success 7

/-- **C6 counterexample**: dropping the rejection option retries with a
freshly generated name, not "the same name once more": the attempt after
the drop carries random suffix 1 while the dropped attempt carried suffix
0 — with the same process id, the two `(pid, rnd)` pairs, and hence the
two formatted pipe names, differ. -/
theorem anon_pipe_flag_drop_cex :
    (anonPipeLoop c6Oracle 1 0 0 0 true []).2 = [⟨1, 0, true⟩, ⟨1, 1, false⟩] ∧
    (Attempt.mk 1 1 false).rnd ≠ (Attempt.mk 1 0 true).rnd := by
  constructor
  · simp [anonPipeLoop, c6Oracle, ERROR_ACCESS_DENIED, ERROR_INVALID_PARAMETER, USIZE_MOD]
  · decide

theorem anon_pipe_flag_drop_witness :
    anonPipeLoop c6Oracle 1 0 0 0 true [] =
      anonPipeLoop c6Oracle 1 1 (1 % USIZE_MOD) 0 false [⟨1, 0, true⟩] := by
  have h := anon_pipe_flag_drop.1 c6Oracle 1 0 0 0 [] rfl (by omega)
  simpa using h

end Pipe
